import Mathlib

/-!
Verification of the tokenizer/parser front end of `src/ProjectCC-Attempt2.cpp`.

The C++ lexer is a single ECMAScript regex alternation walked by an
`sregex_iterator`; alternatives are tried left to right at each position and
the first that matches wins.  Because some alternative matches every character
except a carriage return, successive matches are contiguous, so the scan is
modelled as a step function (`nextTok`) applied repeatedly.  The parser is a
recursive-descent consumer of the token vector with a cursor, two diagnostic
stacks and thrown `runtime_error`s; it is modelled by explicit state passing
with an `Except` error channel.  Out-of-bounds vector indexing (undefined
behavior in the source) is modelled as the distinguished fault `outOfBounds`.
Recursion is fuel-indexed; fuel exhaustion is the distinguished fault
`fuelOut`, and a fuel of the input length always suffices for the lexer
(proved below).
-/

namespace MiniCompiler

/-- The six token kinds of `enum TokenType`. -/
inductive TokenType where
  | KEYWORD
  | IDENTIFIER
  | LITERAL
  | OPERATOR
  | PUNCTUATION
  | UNKNOWN
deriving DecidableEq, Repr

/-- `struct Token`: kind, literal text, 1-based source line. -/
structure Token where
  type : TokenType
  value : String
  line : Nat
deriving DecidableEq, Repr

/-- The keyword alternatives of the token regex, in the order the alternation
tries them: std, ifstream, ofstream, fstream, string, while, if, else, return,
int.  Note the list does not contain the word for. -/
def keywords : List (List Char) :=
  ["std", "ifstream", "ofstream", "fstream", "string",
   "while", "if", "else", "return", "int"].map String.toList

/-- The operator alternatives of the token regex, in the order the alternation
tries them.  The source writes the escaped pipe and the slash as one
alternative, so the list has the two-character word pipe-slash and no lone
pipe and no lone slash; there is a not-equals alternative but no lone
exclamation mark. -/
def operators : List (List Char) :=
  ["::", ".", "<<", ">>", "&&", "++", "--", "<=", ">=", "==", "!=",
   "+=", "-=", "/=", "+", "-", "|/", "<", ">"].map String.toList

/-- The punctuation character class of the token regex. -/
def punctChars : List Char :=
  [';', '(', ')', '\x7b', '\x7d', '<', '>', '[', ']', ',']

/-- Whether the word `w` stands at the start of `input`, as one literal
alternative of the regex matches at the current position. -/
def leadsWith : List Char → List Char → Bool
  | [], _ => true
  | _ :: _, [] => false
  | p :: ps, c :: cs => p = c && leadsWith ps cs

/-- The first alternative of `ws` that matches at the start of `input`
(ECMAScript alternation takes the leftmost alternative that matches, not the
longest). -/
def tryWords (ws : List (List Char)) (input : List Char) : Option (List Char) :=
  ws.find? (fun w => leadsWith w input)

/-- The identifier rule's first-character class, ASCII letters and underscore. -/
def isIdentStart (c : Char) : Bool := c.isAlpha || c = '_'

/-- The identifier rule's continuation class, ASCII alphanumerics and underscore. -/
def isIdentChar (c : Char) : Bool := c.isAlphanum || c = '_'

/-- Scan the body of a string literal after its opening quote.  The literal
rule is non-greedy, so the body ends at the first closing quote; the dot of
the regex matches no line terminator, so the rule fails when a newline or a
carriage return or the end of input comes before a closing quote.  Returns the
body and the rest of the input. -/
def scanLiteral : List Char → Option (List Char × List Char)
  | [] => none
  | c :: cs =>
    if c = '"' then some ([], cs)
    else if c = '\n' ∨ c = '\r' then none
    else
      match scanLiteral cs with
      | some (body, rest) => some (c :: body, rest)
      | none => none

/-- One step of `Lexer::tokenize`: at the current position the alternation
tries, in order, keyword, identifier, string literal, operator, punctuation,
whitespace run, newline, and the any-character fallback; the fallback matches
no line terminator, so a carriage return matches no alternative and the
iterator skips it.  Returns the token emitted (none for whitespace, newline
and skipped characters), the number of characters consumed, and the line
counter after the step. -/
def nextTok : List Char → Nat → Option Token × Nat × Nat
  | [], line => (none, 1, line)
  | c :: cs, line =>
    match tryWords keywords (c :: cs) with
    | some w => (some ⟨.KEYWORD, w.asString, line⟩, w.length, line)
    | none =>
      if isIdentStart c then
        (some ⟨.IDENTIFIER, (c :: cs.takeWhile isIdentChar).asString, line⟩,
          (c :: cs.takeWhile isIdentChar).length, line)
      else
        match (if c = '"' then scanLiteral cs else none) with
        | some (body, _) =>
          (some ⟨.LITERAL, ('"' :: (body ++ ['"'])).asString, line⟩, body.length + 2, line)
        | none =>
          match tryWords operators (c :: cs) with
          | some w => (some ⟨.OPERATOR, w.asString, line⟩, w.length, line)
          | none =>
            if punctChars.contains c then
              (some ⟨.PUNCTUATION, String.mk [c], line⟩, 1, line)
            else if c = ' ' ∨ c = '\t' then
              (none, ((c :: cs).takeWhile fun x => x = ' ' ∨ x = '\t').length, line)
            else if c = '\n' then
              (none, 1, line + 1)
            else if c = '\r' then
              (none, 1, line)
            else
              (some ⟨.UNKNOWN, String.mk [c], line⟩, 1, line)

/-- `Lexer::tokenize`, fuel-indexed: each step emits at most one token and
advances the cursor past the match.  Every step on a non-empty input consumes
at least one character, so a fuel of the input length always suffices; the
lexer's private brace line stack is never read and is omitted. -/
def tokenizeFuel : Nat → List Char → Nat → List Token
  | 0, _, _ => []
  | _ + 1, [], _ => []
  | fuel + 1, c :: cs, line =>
    match nextTok (c :: cs) line with
    | (tk, k, line') =>
      match tk with
      | some t => t :: tokenizeFuel fuel ((c :: cs).drop k) line'
      | none => tokenizeFuel fuel ((c :: cs).drop k) line'

/-- `Lexer::tokenize` on a source string, line counter starting at 1. -/
def tokenize (source : String) : List Token :=
  tokenizeFuel source.toList.length source.toList 1

/-- Position-instrumented twin of `tokenizeFuel`, pairing every emitted token
with the index of its first character in the source.  It exists only to state
the line-number specification; erasing the positions gives back `tokenizeFuel`
(proved below), so it adds no behavior of its own. -/
def tokenizeFuelPos : Nat → List Char → Nat → Nat → List (Token × Nat)
  | 0, _, _, _ => []
  | _ + 1, [], _, _ => []
  | fuel + 1, c :: cs, line, idx =>
    match nextTok (c :: cs) line with
    | (tk, k, line') =>
      match tk with
      | some t => (t, idx) :: tokenizeFuelPos fuel ((c :: cs).drop k) line' (idx + k)
      | none => tokenizeFuelPos fuel ((c :: cs).drop k) line' (idx + k)

/-! ## The AST node model and the parser -/

/-- The `ASTNode` class hierarchy as a closed sum.  `unique_ptr` children may be
null, hence the `Option`; `DeclarationNode` holds identifier nodes, carried as
their names.  The binary-operation, assignment, number, for-loop and while-loop
variants are part of the data model but are never constructed by this parser. -/
inductive ASTNode where
  | number (value : String)
  | identifier (name : String)
  | binaryOperation (op : String) (left right : Option ASTNode)
  | assignment (target : Option ASTNode) (expr : Option ASTNode)
  | declaration (type : String) (identifiers : List String)
  | unaryOperation (op : String) (right : Option ASTNode)
  | forLoop (initialization condition increment body : Option ASTNode)
  | whileLoop (condition body : Option ASTNode)
deriving Repr

/-- A parse-time fault.  `runtimeError` is a thrown `runtime_error` with its
message; `outOfBounds` marks a vector or stack access outside its bounds,
undefined behavior in the source; `fuelOut` is the fuel-exhaustion artifact of
the embedding, never returned when the fuel is large enough. -/
inductive PErr where
  | runtimeError (message : String)
  | outOfBounds
  | fuelOut
deriving DecidableEq, Repr

/-- The parser's mutable fields: the token cursor and the two diagnostic
stacks (`bracketStack`, `lineStack`), a stack's top being the list head. -/
structure PState where
  position : Nat
  bracketStack : List Char
  lineStack : List Nat
deriving DecidableEq, Repr

/-- `Parser::isAtEnd`. -/
def isAtEnd (tks : List Token) (s : PState) : Bool :=
  s.position ≥ tks.length

/-- `Parser::peek`: reads `tokens[position]`.  At `position = tokens.size()`
the read is out of bounds. -/
def peek (tks : List Token) (s : PState) : Except PErr Token :=
  match tks.get? s.position with
  | some t => .ok t
  | none => .error .outOfBounds

/-- `Parser::previous`: reads `tokens[position - 1]`.  At `position = 0` the
C++ index underflows `size_t`, an out-of-bounds read. -/
def previous (tks : List Token) (s : PState) : Except PErr Token :=
  if s.position = 0 then .error .outOfBounds
  else
    match tks.get? (s.position - 1) with
    | some t => .ok t
    | none => .error .outOfBounds

/-- `Parser::advance`: increments the cursor unless at the end, then returns
`previous()`. -/
def advance (tks : List Token) (s : PState) : Except PErr (Token × PState) :=
  let s' := if isAtEnd tks s then s else { s with position := s.position + 1 }
  match previous tks s' with
  | .ok t => .ok (t, s')
  | .error e => .error e

/-- `Parser::match(type, value = "")`: `none` models the empty default value,
which disables the value comparison.  The `peek()` inside is guarded by
`isAtEnd()`, and the trailing `advance()` only moves the cursor; neither reads
out of bounds here, so the result is a plain pair. -/
def matchT (tks : List Token) (s : PState) (type : TokenType) (value : Option String) :
    Bool × PState :=
  if isAtEnd tks s then (false, s)
  else
    match tks.get? s.position with
    | none => (false, s)
    | some token =>
      if token.type ≠ type then (false, s)
      else
        match value with
        | some v =>
          if token.value ≠ v then (false, s)
          else (true, { s with position := s.position + 1 })
        | none => (true, { s with position := s.position + 1 })

/-- Raise a `runtime_error` whose message ends in `to_string(peek().line)`:
every such throw site first evaluates `peek()`, an out-of-bounds read when the
cursor is at the end of the token vector. -/
def throwAtPeek {α : Type} (tks : List Token) (s : PState) (text : String) :
    Except PErr α :=
  match peek tks s with
  | .error e => .error e
  | .ok t => .error (.runtimeError (text ++ toString t.line))

/-- `Parser::parseExpression`: a unary bang prefix builds a `UnaryOperationNode`
around the recursively parsed rest; otherwise one `advance()` and a null
result. -/
def parseExpression (tks : List Token) : Nat → PState → Except PErr (Option ASTNode × PState)
  | 0, _ => .error .fuelOut
  | fuel + 1, s =>
    match matchT tks s .OPERATOR (some "!") with
    | (true, s1) =>
      match previous tks s1 with
      | .error e => .error e
      | .ok opTok =>
        match parseExpression tks fuel s1 with
        | .error e => .error e
        | .ok (right, s2) => .ok (some (.unaryOperation opTok.value right), s2)
    | (false, _) =>
      match advance tks s with
      | .error e => .error e
      | .ok (_, s1) => .ok (none, s1)

/-- The do-while loop of `Parser::parseVariableDeclaration`: identifiers
separated by commas, a missing identifier raising with `peek().line`. -/
def declLoop (tks : List Token) : Nat → PState → List String → Except PErr (List String × PState)
  | 0, _, _ => .error .fuelOut
  | fuel + 1, s, acc =>
    match matchT tks s .IDENTIFIER none with
    | (true, s1) =>
      match previous tks s1 with
      | .error e => .error e
      | .ok idTok =>
        match matchT tks s1 .PUNCTUATION (some ",") with
        | (true, s2) => declLoop tks fuel s2 (acc ++ [idTok.value])
        | (false, s2) => .ok (acc ++ [idTok.value], s2)
    | (false, s1) =>
      throwAtPeek tks s1 "Expected identifier in variable declaration at line "

/-- `Parser::parseVariableDeclaration`: called with the type keyword already
consumed (`previous()` reads it back); builds a `DeclarationNode`. -/
def parseVariableDeclaration (tks : List Token) (fuel : Nat) (s : PState) :
    Except PErr (Option ASTNode × PState) :=
  match previous tks s with
  | .error e => .error e
  | .ok typeTok =>
    match declLoop tks fuel s [] with
    | .error e => .error e
    | .ok (identifiers, s1) =>
      match matchT tks s1 .PUNCTUATION (some ";") with
      | (true, s2) => .ok (some (.declaration typeTok.value identifiers), s2)
      | (false, s2) =>
        throwAtPeek tks s2 "Expected ';' at the end of variable declaration at line "

/-- `Parser::parseFileDeclaration`: identifier, parenthesized literal (with a
push and pop of the bracket tracker), semicolon. -/
def parseFileDeclaration (tks : List Token) (s : PState) :
    Except PErr (Option ASTNode × PState) :=
  match matchT tks s .IDENTIFIER none with
  | (false, s1) =>
    throwAtPeek tks s1 "Expected identifier after file declaration keyword at line "
  | (true, s1) =>
    match previous tks s1 with
    | .error e => .error e
    | .ok idTok =>
      match matchT tks s1 .PUNCTUATION (some "(") with
      | (false, s2) =>
        throwAtPeek tks s2 "Expected '(' after file declaration identifier at line "
      | (true, s2) =>
        match previous tks s2 with
        | .error e => .error e
        | .ok openTok =>
          let s3 := { s2 with bracketStack := '(' :: s2.bracketStack,
                              lineStack := openTok.line :: s2.lineStack }
          match matchT tks s3 .LITERAL none with
          | (false, s4) =>
            throwAtPeek tks s4 "Expected filename literal in file declaration at line "
          | (true, s4) =>
            match matchT tks s4 .PUNCTUATION (some ")") with
            | (false, s5) =>
              throwAtPeek tks s5 "Expected ')' after filename literal in file declaration at line "
            | (true, s5) =>
              let s6 := { s5 with bracketStack := s5.bracketStack.tail,
                                  lineStack := s5.lineStack.tail }
              match matchT tks s6 .PUNCTUATION (some ";") with
              | (false, s7) =>
                throwAtPeek tks s7 "Expected ';' at the end of file declaration at line "
              | (true, s7) => .ok (some (.identifier idTok.value), s7)

/-- `Parser::parseFileOperation`: called with the identifier already consumed;
dot, method name, empty parentheses (with a push and pop of the bracket
tracker), semicolon.  The dot is required to be a PUNCTUATION token. -/
def parseFileOperation (tks : List Token) (s : PState) :
    Except PErr (Option ASTNode × PState) :=
  match previous tks s with
  | .error e => .error e
  | .ok idTok =>
    match matchT tks s .PUNCTUATION (some ".") with
    | (false, s1) =>
      throwAtPeek tks s1 "Unexpected token after file identifier at line "
    | (true, s1) =>
      match matchT tks s1 .IDENTIFIER none with
      | (false, s2) =>
        throwAtPeek tks s2 "Expected method name after '.' in file operation at line "
      | (true, s2) =>
        match matchT tks s2 .PUNCTUATION (some "(") with
        | (false, s3) =>
          throwAtPeek tks s3 "Expected '(' after method name in file operation at line "
        | (true, s3) =>
          match previous tks s3 with
          | .error e => .error e
          | .ok openTok =>
            let s4 := { s3 with bracketStack := '(' :: s3.bracketStack,
                                lineStack := openTok.line :: s3.lineStack }
            match matchT tks s4 .PUNCTUATION (some ")") with
            | (false, s5) =>
              throwAtPeek tks s5 "Expected ')' in file operation at line "
            | (true, s5) =>
              let s6 := { s5 with bracketStack := s5.bracketStack.tail,
                                  lineStack := s5.lineStack.tail }
              match matchT tks s6 .PUNCTUATION (some ";") with
              | (false, s7) =>
                throwAtPeek tks s7 "Expected ';' at the end of file operation at line "
              | (true, s7) => .ok (some (.identifier idTok.value), s7)

mutual

/-- `Parser::parseStatement`: dispatch on the next token; the statement
parsers' results are discarded (the source drops the returned pointers), so
only the state is returned.  The fallback raises with `peek()`, an
out-of-bounds read when the dispatcher runs at the end of the input. -/
def parseStatement (tks : List Token) : Nat → PState → Except PErr PState
  | 0, _ => .error .fuelOut
  | fuel + 1, s =>
    match matchT tks s .KEYWORD (some "int") with
    | (true, s1) =>
      match parseVariableDeclaration tks fuel s1 with
      | .error e => .error e
      | .ok (_, s2) => .ok s2
    | (false, _) =>
      match matchT tks s .KEYWORD (some "ifstream") with
      | (true, s1) =>
        match parseFileDeclaration tks s1 with
        | .error e => .error e
        | .ok (_, s2) => .ok s2
      | (false, _) =>
        match matchT tks s .KEYWORD (some "ofstream") with
        | (true, s1) =>
          match parseFileDeclaration tks s1 with
          | .error e => .error e
          | .ok (_, s2) => .ok s2
        | (false, _) =>
          match matchT tks s .KEYWORD (some "fstream") with
          | (true, s1) =>
            match parseFileDeclaration tks s1 with
            | .error e => .error e
            | .ok (_, s2) => .ok s2
          | (false, _) =>
            match matchT tks s .IDENTIFIER none with
            | (true, s1) =>
              match parseFileOperation tks s1 with
              | .error e => .error e
              | .ok (_, s2) => .ok s2
            | (false, _) =>
              match matchT tks s .KEYWORD (some "if") with
              | (true, s1) => parseIfStatement tks fuel s1
              | (false, _) =>
                match matchT tks s .KEYWORD (some "while") with
                | (true, s1) => parseWhileStatement tks fuel s1
                | (false, _) =>
                  match matchT tks s .KEYWORD (some "for") with
                  | (true, s1) => parseForStatement tks fuel s1
                  | (false, _) =>
                    match peek tks s with
                    | .error e => .error e
                    | .ok t =>
                      .error (.runtimeError
                        ("Unexpected token: " ++ t.value ++ " at line " ++ toString t.line))

/-- `Parser::parseIfStatement`: parenthesized condition and braced body, each
opener pushed with its line on the bracket tracker and popped at its close. -/
def parseIfStatement (tks : List Token) : Nat → PState → Except PErr PState
  | 0, _ => .error .fuelOut
  | fuel + 1, s =>
    match matchT tks s .PUNCTUATION (some "(") with
    | (false, s1) => throwAtPeek tks s1 "Expected '(' after 'if' at line "
    | (true, s1) =>
      match previous tks s1 with
      | .error e => .error e
      | .ok openTok =>
        let s2 := { s1 with bracketStack := '(' :: s1.bracketStack,
                            lineStack := openTok.line :: s1.lineStack }
        match parseExpression tks fuel s2 with
        | .error e => .error e
        | .ok (_, s3) =>
          match matchT tks s3 .PUNCTUATION (some ")") with
          | (false, s4) =>
            throwAtPeek tks s4 "Expected ')' after condition in 'if' statement at line "
          | (true, s4) =>
            let s5 := { s4 with bracketStack := s4.bracketStack.tail,
                                lineStack := s4.lineStack.tail }
            match matchT tks s5 .PUNCTUATION (some "\x7b") with
            | (false, s6) =>
              throwAtPeek tks s6 "Expected '\x7b' after 'if' condition at line "
            | (true, s6) =>
              match previous tks s6 with
              | .error e => .error e
              | .ok braceTok =>
                let s7 := { s6 with bracketStack := '\x7b' :: s6.bracketStack,
                                    lineStack := braceTok.line :: s6.lineStack }
                match parseBlockBody tks fuel s7 with
                | .error e => .error e
                | .ok s8 =>
                  .ok { s8 with bracketStack := s8.bracketStack.tail,
                                lineStack := s8.lineStack.tail }

/-- `Parser::parseWhileStatement`: same shape as the if parser with the while
messages. -/
def parseWhileStatement (tks : List Token) : Nat → PState → Except PErr PState
  | 0, _ => .error .fuelOut
  | fuel + 1, s =>
    match matchT tks s .PUNCTUATION (some "(") with
    | (false, s1) => throwAtPeek tks s1 "Expected '(' after 'while' at line "
    | (true, s1) =>
      match previous tks s1 with
      | .error e => .error e
      | .ok openTok =>
        let s2 := { s1 with bracketStack := '(' :: s1.bracketStack,
                            lineStack := openTok.line :: s1.lineStack }
        match parseExpression tks fuel s2 with
        | .error e => .error e
        | .ok (_, s3) =>
          match matchT tks s3 .PUNCTUATION (some ")") with
          | (false, s4) =>
            throwAtPeek tks s4 "Expected ')' after condition in 'while' statement at line "
          | (true, s4) =>
            let s5 := { s4 with bracketStack := s4.bracketStack.tail,
                                lineStack := s4.lineStack.tail }
            match matchT tks s5 .PUNCTUATION (some "\x7b") with
            | (false, s6) =>
              throwAtPeek tks s6 "Expected '\x7b' after 'while' condition at line "
            | (true, s6) =>
              match previous tks s6 with
              | .error e => .error e
              | .ok braceTok =>
                let s7 := { s6 with bracketStack := '\x7b' :: s6.bracketStack,
                                    lineStack := braceTok.line :: s6.lineStack }
                match parseBlockBody tks fuel s7 with
                | .error e => .error e
                | .ok s8 =>
                  .ok { s8 with bracketStack := s8.bracketStack.tail,
                                lineStack := s8.lineStack.tail }

/-- `Parser::parseForStatement`: parenthesized three-part header, then braced
body, the opener stack handled as in the other statement parsers. -/
def parseForStatement (tks : List Token) : Nat → PState → Except PErr PState
  | 0, _ => .error .fuelOut
  | fuel + 1, s =>
    match matchT tks s .PUNCTUATION (some "(") with
    | (false, s1) => throwAtPeek tks s1 "Expected '(' after 'for' at line "
    | (true, s1) =>
      match previous tks s1 with
      | .error e => .error e
      | .ok openTok =>
        let s2 := { s1 with bracketStack := '(' :: s1.bracketStack,
                            lineStack := openTok.line :: s1.lineStack }
        match parseExpression tks fuel s2 with
        | .error e => .error e
        | .ok (_, s3) =>
          match matchT tks s3 .PUNCTUATION (some ";") with
          | (false, s4) =>
            throwAtPeek tks s4 "Expected ';' after initialization in 'for' statement at line "
          | (true, s4) =>
            match parseExpression tks fuel s4 with
            | .error e => .error e
            | .ok (_, s5) =>
              match matchT tks s5 .PUNCTUATION (some ";") with
              | (false, s6) =>
                throwAtPeek tks s6 "Expected ';' after condition in 'for' statement at line "
              | (true, s6) =>
                match parseExpression tks fuel s6 with
                | .error e => .error e
                | .ok (_, s7) =>
                  match matchT tks s7 .PUNCTUATION (some ")") with
                  | (false, s8) =>
                    throwAtPeek tks s8 "Expected ')' after increment in 'for' statement at line "
                  | (true, s8) =>
                    let s9 := { s8 with bracketStack := s8.bracketStack.tail,
                                        lineStack := s8.lineStack.tail }
                    match matchT tks s9 .PUNCTUATION (some "\x7b") with
                    | (false, s10) =>
                      throwAtPeek tks s10 "Expected '\x7b' after 'for' header at line "
                    | (true, s10) =>
                      match previous tks s10 with
                      | .error e => .error e
                      | .ok braceTok =>
                        let s11 := { s10 with
                                      bracketStack := '\x7b' :: s10.bracketStack,
                                      lineStack := braceTok.line :: s10.lineStack }
                        match parseBlockBody tks fuel s11 with
                        | .error e => .error e
                        | .ok s12 =>
                          .ok { s12 with bracketStack := s12.bracketStack.tail,
                                         lineStack := s12.lineStack.tail }

/-- The body loop shared verbatim by the if, while and for parsers: statements
until a closing brace token is matched. -/
def parseBlockBody (tks : List Token) : Nat → PState → Except PErr PState
  | 0, _ => .error .fuelOut
  | fuel + 1, s =>
    match matchT tks s .PUNCTUATION (some "\x7d") with
    | (true, s1) => .ok s1
    | (false, s1) =>
      match parseStatement tks fuel s1 with
      | .error e => .error e
      | .ok s2 => parseBlockBody tks fuel s2

end

/-- The `while (!isAtEnd()) parseStatement();` loop of `Parser::parseProgram`. -/
def programLoop (tks : List Token) : Nat → PState → Except PErr PState
  | 0, _ => .error .fuelOut
  | fuel + 1, s =>
    if isAtEnd tks s then .ok s
    else
      match parseStatement tks fuel s with
      | .error e => .error e
      | .ok s1 => programLoop tks fuel s1

/-- `Parser::parseProgram`: statements to the end of the token vector, then the
mismatched-bracket check on the bracket tracker (`lineStack.top()` on an empty
stack would itself be undefined behavior); a null root on success. -/
def parseProgram (tks : List Token) (fuel : Nat) (s : PState) :
    Except PErr (Option ASTNode × PState) :=
  match programLoop tks fuel s with
  | .error e => .error e
  | .ok s1 =>
    if s1.bracketStack = [] then .ok (none, s1)
    else
      match s1.lineStack with
      | [] => .error .outOfBounds
      | errorLine :: _ =>
        .error (.runtimeError ("Mismatched brackets detected at line " ++ toString errorLine))

/-- `Parser::parse` on a fresh parser: cursor at 0, both stacks empty. -/
def parse (tks : List Token) (fuel : Nat) : Except PErr (Option ASTNode × PState) :=
  parseProgram tks fuel ⟨0, [], []⟩

/-! ## Lexer lemmas -/

lemma leadsWith_take : ∀ (w input : List Char), leadsWith w input = true →
    input.take w.length = w := by
  intro w
  induction w with
  | nil => intro input _; simp
  | cons p ps ih =>
    intro input h
    cases input with
    | nil => simp [leadsWith] at h
    | cons c cs =>
      simp only [leadsWith, Bool.and_eq_true, decide_eq_true_eq] at h
      simp [List.take_succ_cons, ih cs h.2, h.1]

lemma tryWords_mem {ws : List (List Char)} {input w : List Char}
    (h : tryWords ws input = some w) : w ∈ ws ∧ leadsWith w input = true := by
  unfold tryWords at h
  have h2 := @List.find?_some (List Char) (fun u => leadsWith u input) w ws h
  exact ⟨List.mem_of_find?_eq_some h, by simpa using h2⟩

lemma scanLiteral_spec : ∀ (cs body rest : List Char),
    scanLiteral cs = some (body, rest) →
    cs = body ++ '"' :: rest ∧ '\n' ∉ body := by
  intro cs
  induction cs with
  | nil => intro body rest h; simp [scanLiteral] at h
  | cons c cs ih =>
    intro body rest h
    by_cases hq : c = '"'
    · simp only [scanLiteral, if_pos hq, Option.some.injEq, Prod.mk.injEq] at h
      obtain ⟨h1, h2⟩ := h
      subst h1; subst h2
      simp [hq]
    · by_cases hnl : c = '\n' ∨ c = '\r'
      · simp [scanLiteral, hq, hnl] at h
      · rw [scanLiteral, if_neg hq, if_neg hnl] at h
        cases hsc : scanLiteral cs with
        | none => rw [hsc] at h; simp at h
        | some pr =>
          obtain ⟨b2, r2⟩ := pr
          rw [hsc] at h
          simp only [Option.some.injEq, Prod.mk.injEq] at h
          obtain ⟨hb, hr⟩ := h
          obtain ⟨hcs, hnin⟩ := ih b2 r2 hsc
          subst hb; subst hr
          refine ⟨by simp [hcs], ?_⟩
          simp only [List.mem_cons, not_or]
          exact ⟨fun hc => hnl (Or.inl hc.symm), hnin⟩

lemma keywords_facts : ∀ w ∈ keywords, 1 ≤ w.length ∧ w.count '\n' = 0 := by decide

lemma operators_facts : ∀ w ∈ operators, 1 ≤ w.length ∧ w.count '\n' = 0 := by decide

lemma isIdentStart_ne_newline {c : Char} (h : isIdentStart c = true) : c ≠ '\n' := by
  intro hc; subst hc; simp [isIdentStart] at h

lemma isIdentChar_ne_newline {c : Char} (h : isIdentChar c = true) : c ≠ '\n' := by
  intro hc; subst hc; simp [isIdentChar] at h

lemma punctChars_ne_newline {c : Char} (h : punctChars.contains c = true) : c ≠ '\n' := by
  intro hc; subst hc; revert h; decide

/-- A list whose members all differ from `a` counts zero occurrences of `a`. -/
lemma count_eq_zero_of_all_ne {a : Char} {l : List Char}
    (h : ∀ x ∈ l, x ≠ a) : l.count a = 0 :=
  List.count_eq_zero.mpr fun hm => h a hm rfl

/-- Newlines in a split prefix: counting over `take (m + n)` splits at `m`. -/
lemma count_take_add (l : List Char) (m n : Nat) :
    (l.take (m + n)).count '\n'
      = (l.take m).count '\n' + ((l.drop m).take n).count '\n' := by
  have h : l.take (m + n) = l.take m ++ (l.drop m).take n := by
    rw [List.take_drop]
    conv_lhs => rw [← List.take_append_drop m (l.take (m + n))]
    congr 1
    rw [List.take_take, Nat.min_eq_left (by omega)]
  rw [h, List.count_append]

/-- The per-step facts of the scan: a step on a non-empty input consumes at
least one character, the line counter grows by exactly the number of newlines
among the consumed characters, and a step that emits a token stamps it with
the incoming line counter and leaves the counter unchanged. -/
lemma nextTok_facts {c : Char} {cs : List Char} {line : Nat} {tk : Option Token}
    {k line' : Nat} (h : nextTok (c :: cs) line = (tk, k, line')) :
    1 ≤ k ∧ line' = line + (((c :: cs).take k).count '\n') ∧
    ∀ t, tk = some t → t.line = line ∧ line' = line := by
  cases hkw : tryWords keywords (c :: cs) with
  | some w =>
    simp only [nextTok, hkw, Prod.mk.injEq] at h
    obtain ⟨htk, hk, hl⟩ := h
    obtain ⟨hmem, hlead⟩ := tryWords_mem hkw
    obtain ⟨hlen, hcount⟩ := keywords_facts w hmem
    subst hk
    rw [leadsWith_take w _ hlead, hcount]
    exact ⟨hlen, by omega, fun t ht => by rw [← htk] at ht; cases ht; exact ⟨rfl, by omega⟩⟩
  | none =>
    simp only [nextTok, hkw] at h
    by_cases hid : isIdentStart c = true
    · rw [if_pos hid] at h
      simp only [Prod.mk.injEq] at h
      obtain ⟨htk, hk, hl⟩ := h
      subst hk
      have htake : (c :: cs).take (c :: cs.takeWhile isIdentChar).length
          = c :: cs.takeWhile isIdentChar := by
        simp only [List.length_cons, List.take_succ_cons, List.cons.injEq, true_and]
        exact (List.prefix_iff_eq_take.mp (List.takeWhile_prefix isIdentChar)).symm
      rw [htake]
      have hcount : (c :: cs.takeWhile isIdentChar).count '\n' = 0 := by
        refine count_eq_zero_of_all_ne ?_
        intro x hx
        rcases List.mem_cons.mp hx with hx | hx
        · subst hx; exact isIdentStart_ne_newline hid
        · exact isIdentChar_ne_newline (List.mem_takeWhile_imp hx)
      rw [hcount]
      exact ⟨by simp, by omega, fun t ht => by rw [← htk] at ht; cases ht; exact ⟨rfl, by omega⟩⟩
    · rw [if_neg hid] at h
      cases hlit : (if c = '"' then scanLiteral cs else none) with
      | some pr =>
        obtain ⟨body, rest⟩ := pr
        rw [hlit] at h
        simp only [Prod.mk.injEq] at h
        obtain ⟨htk, hk, hl⟩ := h
        subst hk
        have hq : c = '"' := by
          by_contra hq
          rw [if_neg hq] at hlit; simp at hlit
        rw [if_pos hq] at hlit
        obtain ⟨hcs, hnin⟩ := scanLiteral_spec cs body rest hlit
        have htake : (c :: cs).take (body.length + 2) = c :: (body ++ ['"']) := by
          rw [hcs]
          simp only [List.take_succ_cons, List.cons.injEq, true_and]
          rw [show (body ++ '"' :: rest : List Char)
              = (body ++ ['"']) ++ rest by simp]
          exact List.take_left' (by simp)
        rw [htake]
        have hcount : (c :: (body ++ ['"'])).count '\n' = 0 := by
          refine count_eq_zero_of_all_ne ?_
          intro x hx
          rcases List.mem_cons.mp hx with hx | hx
          · subst hx; subst hq; decide
          · rcases List.mem_append.mp hx with hx | hx
            · exact fun he => hnin (he ▸ hx)
            · simp only [List.mem_singleton] at hx; subst hx; decide
        rw [hcount]
        exact ⟨by omega, by omega, fun t ht => by rw [← htk] at ht; cases ht; exact ⟨rfl, by omega⟩⟩
      | none =>
        rw [hlit] at h
        cases hop : tryWords operators (c :: cs) with
        | some w =>
          rw [hop] at h
          simp only [Prod.mk.injEq] at h
          obtain ⟨htk, hk, hl⟩ := h
          obtain ⟨hmem, hlead⟩ := tryWords_mem hop
          obtain ⟨hlen, hcount⟩ := operators_facts w hmem
          subst hk
          rw [leadsWith_take w _ hlead, hcount]
          exact ⟨hlen, by omega, fun t ht => by rw [← htk] at ht; cases ht; exact ⟨rfl, by omega⟩⟩
        | none =>
          rw [hop] at h
          by_cases hpu : punctChars.contains c = true
          · rw [if_pos hpu] at h
            simp only [Prod.mk.injEq] at h
            obtain ⟨htk, hk, hl⟩ := h
            subst hk
            have hcount : ((c :: cs).take 1).count '\n' = 0 := by
              simp only [List.take_succ_cons, List.take_zero]
              exact count_eq_zero_of_all_ne fun x hx => by
                simp only [List.mem_singleton] at hx
                subst hx; exact punctChars_ne_newline hpu
            rw [hcount]
            exact ⟨le_refl 1, by omega,
              fun t ht => by rw [← htk] at ht; cases ht; exact ⟨rfl, by omega⟩⟩
          · rw [if_neg hpu] at h
            by_cases hws : c = ' ' ∨ c = '\t'
            · rw [if_pos hws] at h
              simp only [Prod.mk.injEq] at h
              obtain ⟨htk, hk, hl⟩ := h
              subst hk
              have htake : (c :: cs).take
                  ((c :: cs).takeWhile (fun x => decide (x = ' ' ∨ x = '\t'))).length
                  = (c :: cs).takeWhile (fun x => decide (x = ' ' ∨ x = '\t')) :=
                (List.prefix_iff_eq_take.mp (List.takeWhile_prefix _)).symm
              rw [htake]
              have hcount : ((c :: cs).takeWhile
                  (fun x => decide (x = ' ' ∨ x = '\t'))).count '\n' = 0 := by
                refine count_eq_zero_of_all_ne ?_
                intro x hx
                have hp := List.mem_takeWhile_imp hx
                simp only [decide_eq_true_eq] at hp
                rcases hp with h1 | h1 <;> (subst h1; decide)
              rw [hcount]
              refine ⟨?_, by omega, fun t ht => by rw [← htk] at ht; cases ht⟩
              rw [List.takeWhile_cons_of_pos (by simpa using hws)]
              simp
            · rw [if_neg hws] at h
              by_cases hnl : c = '\n'
              · rw [if_pos hnl] at h
                simp only [Prod.mk.injEq] at h
                obtain ⟨htk, hk, hl⟩ := h
                subst hk
                have hcount : ((c :: cs).take 1).count '\n' = 1 := by
                  subst hnl; simp
                rw [hcount]
                exact ⟨le_refl 1, by omega, fun t ht => by rw [← htk] at ht; cases ht⟩
              · rw [if_neg hnl] at h
                by_cases hcr : c = '\r'
                · rw [if_pos hcr] at h
                  simp only [Prod.mk.injEq] at h
                  obtain ⟨htk, hk, hl⟩ := h
                  subst hk
                  have hcount : ((c :: cs).take 1).count '\n' = 0 := by
                    subst hcr; simp
                  rw [hcount]
                  exact ⟨le_refl 1, by omega, fun t ht => by rw [← htk] at ht; cases ht⟩
                · rw [if_neg hcr] at h
                  simp only [Prod.mk.injEq] at h
                  obtain ⟨htk, hk, hl⟩ := h
                  subst hk
                  have hcount : ((c :: cs).take 1).count '\n' = 0 := by
                    simp only [List.take_succ_cons, List.take_zero]
                    exact count_eq_zero_of_all_ne fun x hx => by
                      simp only [List.mem_singleton] at hx
                      subst hx; exact hnl
                  rw [hcount]
                  exact ⟨le_refl 1, by omega,
                    fun t ht => by rw [← htk] at ht; cases ht; exact ⟨rfl, by omega⟩⟩

/-- The kind/value discipline of emitted tokens: a KEYWORD token's text is one
of the keyword alternatives, an OPERATOR token's text one of the operator
alternatives. -/
lemma nextTok_types {c : Char} {cs : List Char} {line : Nat} {t : Token}
    {k line' : Nat} (h : nextTok (c :: cs) line = (some t, k, line')) :
    (t.type = .KEYWORD → ∃ w ∈ keywords, t.value = w.asString) ∧
    (t.type = .OPERATOR → ∃ w ∈ operators, t.value = w.asString) := by
  cases hkw : tryWords keywords (c :: cs) with
  | some w =>
    simp only [nextTok, hkw, Prod.mk.injEq, Option.some.injEq] at h
    obtain ⟨htk, -, -⟩ := h
    subst htk
    exact ⟨fun _ => ⟨w, (tryWords_mem hkw).1, rfl⟩, fun hty => by simp at hty⟩
  | none =>
    simp only [nextTok, hkw] at h
    by_cases hid : isIdentStart c = true
    · rw [if_pos hid] at h
      simp only [Prod.mk.injEq, Option.some.injEq] at h
      obtain ⟨htk, -, -⟩ := h
      subst htk
      exact ⟨fun hty => by simp at hty, fun hty => by simp at hty⟩
    · rw [if_neg hid] at h
      cases hlit : (if c = '"' then scanLiteral cs else none) with
      | some pr =>
        obtain ⟨body, rest⟩ := pr
        rw [hlit] at h
        simp only [Prod.mk.injEq, Option.some.injEq] at h
        obtain ⟨htk, -, -⟩ := h
        subst htk
        exact ⟨fun hty => by simp at hty, fun hty => by simp at hty⟩
      | none =>
        rw [hlit] at h
        cases hop : tryWords operators (c :: cs) with
        | some w =>
          rw [hop] at h
          simp only [Prod.mk.injEq, Option.some.injEq] at h
          obtain ⟨htk, -, -⟩ := h
          subst htk
          exact ⟨fun hty => by simp at hty, fun _ => ⟨w, (tryWords_mem hop).1, rfl⟩⟩
        | none =>
          rw [hop] at h
          by_cases hpu : punctChars.contains c = true
          · rw [if_pos hpu] at h
            simp only [Prod.mk.injEq, Option.some.injEq] at h
            obtain ⟨htk, -, -⟩ := h
            subst htk
            exact ⟨fun hty => by simp at hty, fun hty => by simp at hty⟩
          · rw [if_neg hpu] at h
            by_cases hws : c = ' ' ∨ c = '\t'
            · rw [if_pos hws] at h
              simp at h
            · rw [if_neg hws] at h
              by_cases hnl : c = '\n'
              · rw [if_pos hnl] at h; simp at h
              · rw [if_neg hnl] at h
                by_cases hcr : c = '\r'
                · rw [if_pos hcr] at h; simp at h
                · rw [if_neg hcr] at h
                  simp only [Prod.mk.injEq, Option.some.injEq] at h
                  obtain ⟨htk, -, -⟩ := h
                  subst htk
                  exact ⟨fun hty => by simp at hty, fun hty => by simp at hty⟩

/-- Every token of the scan's output is emitted by some single step. -/
lemma mem_tokenizeFuel_source : ∀ (f : Nat) (cs : List Char) (line : Nat) (t : Token),
    t ∈ tokenizeFuel f cs line →
    ∃ c cs2 l0 k l', nextTok (c :: cs2) l0 = (some t, k, l') := by
  intro f
  induction f with
  | zero => intro cs line t h; simp [tokenizeFuel] at h
  | succ f ih =>
    intro cs line t h
    cases cs with
    | nil => simp [tokenizeFuel] at h
    | cons c cs2 =>
      cases hnt : nextTok (c :: cs2) line with
      | mk tk rest =>
        obtain ⟨k, l'⟩ := rest
        cases tk with
        | some u =>
          simp only [tokenizeFuel, hnt, List.mem_cons] at h
          rcases h with h | h
          · subst h; exact ⟨c, cs2, line, k, l', hnt⟩
          · exact ih _ _ _ h
        | none =>
          simp only [tokenizeFuel, hnt] at h
          exact ih _ _ _ h

/-- The scan never emits more tokens than the input has characters: the
termination/progress bound behind the lexer's totality. -/
lemma tokenizeFuel_length : ∀ (f : Nat) (cs : List Char) (line : Nat),
    (tokenizeFuel f cs line).length ≤ cs.length := by
  intro f
  induction f with
  | zero => intro cs line; simp [tokenizeFuel]
  | succ f ih =>
    intro cs line
    cases cs with
    | nil => simp [tokenizeFuel]
    | cons c cs2 =>
      cases hnt : nextTok (c :: cs2) line with
      | mk tk rest =>
        obtain ⟨k, l'⟩ := rest
        have hk := (nextTok_facts hnt).1
        have hrec := ih ((c :: cs2).drop k) l'
        have hdrop : ((c :: cs2).drop k).length = (c :: cs2).length - k :=
          List.length_drop k (c :: cs2)
        cases tk with
        | some u =>
          simp only [tokenizeFuel, hnt, List.length_cons] at *
          omega
        | none =>
          simp only [tokenizeFuel, hnt, List.length_cons] at *
          omega

lemma tokenizeFuel_nil : ∀ (f line : Nat), tokenizeFuel f [] line = [] := by
  intro f line; cases f <;> rfl

/-- Fuel irrelevance: any fuel at least the input length computes the same
token sequence, so the scan always terminates having consumed the whole
input. -/
lemma tokenizeFuel_mono : ∀ (f g : Nat) (cs : List Char) (line : Nat),
    cs.length ≤ f → cs.length ≤ g →
    tokenizeFuel f cs line = tokenizeFuel g cs line := by
  intro f
  induction f with
  | zero =>
    intro g cs line hf _
    have hnil : cs = [] := List.length_eq_zero.mp (by omega)
    subst hnil
    rw [tokenizeFuel_nil, tokenizeFuel_nil]
  | succ f ih =>
    intro g cs line hf hg
    cases cs with
    | nil => rw [tokenizeFuel_nil, tokenizeFuel_nil]
    | cons c cs2 =>
      cases g with
      | zero => simp at hg
      | succ g2 =>
        cases hnt : nextTok (c :: cs2) line with
        | mk tk rest =>
          obtain ⟨k, l'⟩ := rest
          have hk := (nextTok_facts hnt).1
          have hdrop : ((c :: cs2).drop k).length = (c :: cs2).length - k :=
            List.length_drop k (c :: cs2)
          have hlenf : ((c :: cs2).drop k).length ≤ f := by
            simp only [List.length_cons] at *; omega
          have hleng : ((c :: cs2).drop k).length ≤ g2 := by
            simp only [List.length_cons] at *; omega
          cases tk with
          | some u =>
            simp only [tokenizeFuel, hnt]
            rw [ih g2 _ l' hlenf hleng]
          | none =>
            simp only [tokenizeFuel, hnt]
            exact ih g2 _ l' hlenf hleng

/-- Emitted lines never fall below the incoming line counter. -/
lemma tokenizeFuel_line_lb : ∀ (f : Nat) (cs : List Char) (line : Nat) (t : Token),
    t ∈ tokenizeFuel f cs line → line ≤ t.line := by
  intro f
  induction f with
  | zero => intro cs line t h; simp [tokenizeFuel] at h
  | succ f ih =>
    intro cs line t h
    cases cs with
    | nil => simp [tokenizeFuel] at h
    | cons c cs2 =>
      cases hnt : nextTok (c :: cs2) line with
      | mk tk rest =>
        obtain ⟨k, l'⟩ := rest
        obtain ⟨-, hline, hsome⟩ := nextTok_facts hnt
        cases tk with
        | some u =>
          simp only [tokenizeFuel, hnt, List.mem_cons] at h
          rcases h with h | h
          · subst h; exact le_of_eq (hsome t rfl).1.symm
          · have := ih _ _ _ h; omega
        | none =>
          simp only [tokenizeFuel, hnt] at h
          have := ih _ _ _ h; omega

/-- The emitted line numbers are non-decreasing along the token sequence. -/
lemma tokenizeFuel_chain : ∀ (f : Nat) (cs : List Char) (line : Nat),
    List.Chain' (· ≤ ·) ((tokenizeFuel f cs line).map Token.line) := by
  intro f
  induction f with
  | zero => intro cs line; simp [tokenizeFuel]
  | succ f ih =>
    intro cs line
    cases cs with
    | nil => simp [tokenizeFuel]
    | cons c cs2 =>
      cases hnt : nextTok (c :: cs2) line with
      | mk tk rest =>
        obtain ⟨k, l'⟩ := rest
        obtain ⟨-, hline, hsome⟩ := nextTok_facts hnt
        cases tk with
        | some u =>
          simp only [tokenizeFuel, hnt, List.map_cons]
          rw [List.chain'_cons']
          refine ⟨?_, ih _ _⟩
          intro y hy
          have hmem : y ∈ (tokenizeFuel f ((c :: cs2).drop k) l').map Token.line :=
            List.mem_of_mem_head? hy
          obtain ⟨v, hv, hvy⟩ := List.mem_map.mp hmem
          have hlb := tokenizeFuel_line_lb f _ l' v hv
          obtain ⟨hu, hl'⟩ := hsome u rfl
          omega
        | none =>
          simp only [tokenizeFuel, hnt]
          exact ih _ _

/-- Erasing the instrumented positions gives back the scan itself. -/
lemma tokenizeFuelPos_fst : ∀ (f : Nat) (cs : List Char) (line idx : Nat),
    (tokenizeFuelPos f cs line idx).map Prod.fst = tokenizeFuel f cs line := by
  intro f
  induction f with
  | zero => intro cs line idx; rfl
  | succ f ih =>
    intro cs line idx
    cases cs with
    | nil => rfl
    | cons c cs2 =>
      cases hnt : nextTok (c :: cs2) line with
      | mk tk rest =>
        obtain ⟨k, l'⟩ := rest
        cases tk with
        | some u =>
          simp only [tokenizeFuelPos, tokenizeFuel, hnt, List.map_cons]
          rw [ih]
        | none =>
          simp only [tokenizeFuelPos, tokenizeFuel, hnt]
          exact ih _ _ _

/-- The line-number invariant: scanning the suffix of `src` at character index
`idx` with the line counter at one plus the newlines before `idx`, every
emitted token's line is one plus the newlines strictly before the token's
first character. -/
lemma tokenizeFuelPos_lines : ∀ (f : Nat) (src cs : List Char) (line idx : Nat),
    cs = src.drop idx → line = 1 + ((src.take idx).count '\n') →
    ∀ (t : Token) (i : Nat), (t, i) ∈ tokenizeFuelPos f cs line idx →
      t.line = 1 + ((src.take i).count '\n') := by
  intro f
  induction f with
  | zero => intro src cs line idx h1 h2 t i h; simp [tokenizeFuelPos] at h
  | succ f ih =>
    intro src cs line idx h1 h2 t i h
    cases cs with
    | nil => simp [tokenizeFuelPos] at h
    | cons c cs2 =>
      cases hnt : nextTok (c :: cs2) line with
      | mk tk rest =>
        obtain ⟨k, l'⟩ := rest
        obtain ⟨hk, hline, hsome⟩ := nextTok_facts hnt
        have hdrop : (c :: cs2).drop k = src.drop (idx + k) := by
          rw [← List.drop_drop, ← h1]
        have hcnt := count_take_add src idx k
        rw [← h1] at hcnt
        have hl' : l' = 1 + ((src.take (idx + k)).count '\n') := by omega
        cases tk with
        | some u =>
          simp only [tokenizeFuelPos, hnt, List.mem_cons, Prod.mk.injEq] at h
          rcases h with ⟨ht, hi⟩ | h
          · obtain ⟨hu, -⟩ := hsome u rfl
            rw [ht, hi]
            omega
          · exact ih src _ l' (idx + k) hdrop hl' t i h
        | none =>
          simp only [tokenizeFuelPos, hnt] at h
          exact ih src _ l' (idx + k) hdrop hl' t i h
/-! ## Parser stack lemmas -/

lemma matchT_stacks (tks : List Token) (s : PState) (ty : TokenType) (v : Option String) :
    ((matchT tks s ty v).2).bracketStack = s.bracketStack ∧
    ((matchT tks s ty v).2).lineStack = s.lineStack := by
  unfold matchT
  repeat' split
  all_goals exact ⟨rfl, rfl⟩

lemma matchT_stacks_of_eq {tks : List Token} {s : PState} {ty : TokenType}
    {v : Option String} {b : Bool} {s1 : PState} (h : matchT tks s ty v = (b, s1)) :
    s1.bracketStack = s.bracketStack ∧ s1.lineStack = s.lineStack := by
  have h0 := matchT_stacks tks s ty v
  rw [h] at h0
  simpa using h0

lemma advance_stacks {tks : List Token} {s : PState} {t : Token} {s' : PState}
    (h : advance tks s = .ok (t, s')) :
    s'.bracketStack = s.bracketStack ∧ s'.lineStack = s.lineStack := by
  simp only [advance] at h
  split at h
  · simp only [Except.ok.injEq, Prod.mk.injEq] at h
    obtain ⟨-, hs⟩ := h
    subst hs
    split <;> exact ⟨rfl, rfl⟩
  · exact Except.noConfusion h

lemma throwAtPeek_ne_ok {α : Type} {tks : List Token} {s : PState} {text : String}
    {r : α} : throwAtPeek tks s text ≠ .ok r := by
  unfold throwAtPeek
  split <;> simp

lemma parseExpression_stacks : ∀ (fuel : Nat) (tks : List Token) (s : PState)
    (a : Option ASTNode) (s' : PState), parseExpression tks fuel s = .ok (a, s') →
    s'.bracketStack = s.bracketStack ∧ s'.lineStack = s.lineStack := by
  intro fuel
  induction fuel with
  | zero => intro tks s a s' h; exact Except.noConfusion h
  | succ fuel ih =>
    intro tks s a s' h
    rw [parseExpression] at h
    split at h
    next s1 heq1 =>
      have h1 := matchT_stacks tks s .OPERATOR (some "!")
      rw [heq1] at h1
      split at h
      · exact Except.noConfusion h
      next opTok heq2 =>
        split at h
        · exact Except.noConfusion h
        next right s2 heq3 =>
          simp only [Except.ok.injEq, Prod.mk.injEq] at h
          obtain ⟨-, hs⟩ := h
          subst hs
          have h2 := ih tks s1 right s2 heq3
          exact ⟨h2.1.trans h1.1, h2.2.trans h1.2⟩
    next s1 heq1 =>
      split at h
      · exact Except.noConfusion h
      next t0 s2 heq2 =>
        simp only [Except.ok.injEq, Prod.mk.injEq] at h
        obtain ⟨-, hs⟩ := h
        subst hs
        exact advance_stacks heq2

lemma declLoop_stacks : ∀ (fuel : Nat) (tks : List Token) (s : PState)
    (acc ids : List String) (s' : PState), declLoop tks fuel s acc = .ok (ids, s') →
    s'.bracketStack = s.bracketStack ∧ s'.lineStack = s.lineStack := by
  intro fuel
  induction fuel with
  | zero => intro tks s acc ids s' h; exact Except.noConfusion h
  | succ fuel ih =>
    intro tks s acc ids s' h
    rw [declLoop] at h
    split at h
    next s1 heq1 =>
      have h1 := matchT_stacks tks s .IDENTIFIER none
      rw [heq1] at h1
      split at h
      · exact Except.noConfusion h
      next idTok heq2 =>
        split at h
        next s2 heq3 =>
          have h2 := matchT_stacks tks s1 .PUNCTUATION (some ",")
          rw [heq3] at h2
          have h3 := ih tks s2 (acc ++ [idTok.value]) ids s' h
          exact ⟨h3.1.trans (h2.1.trans h1.1), h3.2.trans (h2.2.trans h1.2)⟩
        next s2 heq3 =>
          have h2 := matchT_stacks tks s1 .PUNCTUATION (some ",")
          rw [heq3] at h2
          simp only [Except.ok.injEq, Prod.mk.injEq] at h
          obtain ⟨-, hs⟩ := h
          subst hs
          exact ⟨h2.1.trans h1.1, h2.2.trans h1.2⟩
    next s1 heq1 =>
      exact absurd h throwAtPeek_ne_ok

lemma parseVariableDeclaration_stacks {tks : List Token} {fuel : Nat} {s : PState}
    {a : Option ASTNode} {s' : PState}
    (h : parseVariableDeclaration tks fuel s = .ok (a, s')) :
    s'.bracketStack = s.bracketStack ∧ s'.lineStack = s.lineStack := by
  unfold parseVariableDeclaration at h
  split at h
  · exact Except.noConfusion h
  next typeTok heq0 =>
    split at h
    · exact Except.noConfusion h
    next identifiers s1 heq1 =>
      have h1 := declLoop_stacks fuel tks s [] identifiers s1 heq1
      split at h
      next s2 heq2 =>
        have h2 := matchT_stacks tks s1 .PUNCTUATION (some ";")
        rw [heq2] at h2
        simp only [Except.ok.injEq, Prod.mk.injEq] at h
        obtain ⟨-, hs⟩ := h
        subst hs
        exact ⟨h2.1.trans h1.1, h2.2.trans h1.2⟩
      next s2 heq2 =>
        exact absurd h throwAtPeek_ne_ok

lemma parseFileDeclaration_stacks {tks : List Token} {s : PState}
    {a : Option ASTNode} {s' : PState}
    (h : parseFileDeclaration tks s = .ok (a, s')) :
    s'.bracketStack = s.bracketStack ∧ s'.lineStack = s.lineStack := by
  simp only [parseFileDeclaration] at h
  split at h
  next s1 heq1 => exact absurd h throwAtPeek_ne_ok
  next s1 heq1 =>
    have h1 := matchT_stacks_of_eq heq1
    split at h
    · exact Except.noConfusion h
    next idTok heq2 =>
      split at h
      next s2 heq3 => exact absurd h throwAtPeek_ne_ok
      next s2 heq3 =>
        have h2 := matchT_stacks_of_eq heq3
        split at h
        · exact Except.noConfusion h
        next openTok heq4 =>
          split at h
          next s4 heq5 => exact absurd h throwAtPeek_ne_ok
          next s4 heq5 =>
            have h4 := matchT_stacks_of_eq heq5
            split at h
            next s5 heq6 => exact absurd h throwAtPeek_ne_ok
            next s5 heq6 =>
              have h5 := matchT_stacks_of_eq heq6
              split at h
              next s7 heq7 => exact absurd h throwAtPeek_ne_ok
              next s7 heq7 =>
                have h6 := matchT_stacks_of_eq heq7
                simp only [Except.ok.injEq, Prod.mk.injEq] at h
                obtain ⟨-, hs⟩ := h
                subst hs
                constructor
                · rw [h6.1, h5.1, h4.1, List.tail_cons, h2.1, h1.1]
                · rw [h6.2, h5.2, h4.2, List.tail_cons, h2.2, h1.2]

lemma parseFileOperation_stacks {tks : List Token} {s : PState}
    {a : Option ASTNode} {s' : PState}
    (h : parseFileOperation tks s = .ok (a, s')) :
    s'.bracketStack = s.bracketStack ∧ s'.lineStack = s.lineStack := by
  simp only [parseFileOperation] at h
  split at h
  · exact Except.noConfusion h
  next idTok heq0 =>
    split at h
    next s1 heq1 => exact absurd h throwAtPeek_ne_ok
    next s1 heq1 =>
      have h1 := matchT_stacks_of_eq heq1
      split at h
      next s2 heq2 => exact absurd h throwAtPeek_ne_ok
      next s2 heq2 =>
        have h2 := matchT_stacks_of_eq heq2
        split at h
        next s3 heq3 => exact absurd h throwAtPeek_ne_ok
        next s3 heq3 =>
          have h3 := matchT_stacks_of_eq heq3
          split at h
          · exact Except.noConfusion h
          next openTok heq4 =>
            split at h
            next s5 heq5 => exact absurd h throwAtPeek_ne_ok
            next s5 heq5 =>
              have h4 := matchT_stacks_of_eq heq5
              split at h
              next s7 heq6 => exact absurd h throwAtPeek_ne_ok
              next s7 heq6 =>
                have h5 := matchT_stacks_of_eq heq6
                simp only [Except.ok.injEq, Prod.mk.injEq] at h
                obtain ⟨-, hs⟩ := h
                subst hs
                constructor
                · rw [h5.1, h4.1, List.tail_cons, h3.1, h2.1, h1.1]
                · rw [h5.2, h4.2, List.tail_cons, h3.2, h2.2, h1.2]

/-- Success of any statement-level parser restores both diagnostic stacks to
their entry value: every push of an opener and its line is matched by the pop
at its close on every non-throwing path. -/
lemma knot_stacks : ∀ fuel : Nat,
    (∀ (tks : List Token) (s s' : PState), parseStatement tks fuel s = .ok s' →
      s'.bracketStack = s.bracketStack ∧ s'.lineStack = s.lineStack) ∧
    (∀ (tks : List Token) (s s' : PState), parseIfStatement tks fuel s = .ok s' →
      s'.bracketStack = s.bracketStack ∧ s'.lineStack = s.lineStack) ∧
    (∀ (tks : List Token) (s s' : PState), parseWhileStatement tks fuel s = .ok s' →
      s'.bracketStack = s.bracketStack ∧ s'.lineStack = s.lineStack) ∧
    (∀ (tks : List Token) (s s' : PState), parseForStatement tks fuel s = .ok s' →
      s'.bracketStack = s.bracketStack ∧ s'.lineStack = s.lineStack) ∧
    (∀ (tks : List Token) (s s' : PState), parseBlockBody tks fuel s = .ok s' →
      s'.bracketStack = s.bracketStack ∧ s'.lineStack = s.lineStack) := by
  intro fuel
  induction fuel with
  | zero =>
    exact ⟨fun _ _ _ h => Except.noConfusion h, fun _ _ _ h => Except.noConfusion h,
      fun _ _ _ h => Except.noConfusion h, fun _ _ _ h => Except.noConfusion h,
      fun _ _ _ h => Except.noConfusion h⟩
  | succ fuel ih =>
    obtain ⟨ihS, ihI, ihW, ihF, ihB⟩ := ih
    refine ⟨?_, ?_, ?_, ?_, ?_⟩
    · -- parseStatement
      intro tks s s' h
      simp only [parseStatement] at h
      split at h
      next s1 heq1 =>
        have h1 := matchT_stacks_of_eq heq1
        split at h
        · exact Except.noConfusion h
        next a2 s2 heqD =>
          simp only [Except.ok.injEq] at h
          subst h
          have h2 := parseVariableDeclaration_stacks heqD
          exact ⟨h2.1.trans h1.1, h2.2.trans h1.2⟩
      next _ =>
        split at h
        next s1 heq1 =>
          have h1 := matchT_stacks_of_eq heq1
          split at h
          · exact Except.noConfusion h
          next a2 s2 heqD =>
            simp only [Except.ok.injEq] at h
            subst h
            have h2 := parseFileDeclaration_stacks heqD
            exact ⟨h2.1.trans h1.1, h2.2.trans h1.2⟩
        next _ =>
          split at h
          next s1 heq1 =>
            have h1 := matchT_stacks_of_eq heq1
            split at h
            · exact Except.noConfusion h
            next a2 s2 heqD =>
              simp only [Except.ok.injEq] at h
              subst h
              have h2 := parseFileDeclaration_stacks heqD
              exact ⟨h2.1.trans h1.1, h2.2.trans h1.2⟩
          next _ =>
            split at h
            next s1 heq1 =>
              have h1 := matchT_stacks_of_eq heq1
              split at h
              · exact Except.noConfusion h
              next a2 s2 heqD =>
                simp only [Except.ok.injEq] at h
                subst h
                have h2 := parseFileDeclaration_stacks heqD
                exact ⟨h2.1.trans h1.1, h2.2.trans h1.2⟩
            next _ =>
              split at h
              next s1 heq1 =>
                have h1 := matchT_stacks_of_eq heq1
                split at h
                · exact Except.noConfusion h
                next a2 s2 heqD =>
                  simp only [Except.ok.injEq] at h
                  subst h
                  have h2 := parseFileOperation_stacks heqD
                  exact ⟨h2.1.trans h1.1, h2.2.trans h1.2⟩
              next _ =>
                split at h
                next s1 heq1 =>
                  have h1 := matchT_stacks_of_eq heq1
                  have h2 := ihI tks s1 s' h
                  exact ⟨h2.1.trans h1.1, h2.2.trans h1.2⟩
                next _ =>
                  split at h
                  next s1 heq1 =>
                    have h1 := matchT_stacks_of_eq heq1
                    have h2 := ihW tks s1 s' h
                    exact ⟨h2.1.trans h1.1, h2.2.trans h1.2⟩
                  next _ =>
                    split at h
                    next s1 heq1 =>
                      have h1 := matchT_stacks_of_eq heq1
                      have h2 := ihF tks s1 s' h
                      exact ⟨h2.1.trans h1.1, h2.2.trans h1.2⟩
                    next _ =>
                      split at h
                      · exact Except.noConfusion h
                      next t heqP => exact Except.noConfusion h
    · -- parseIfStatement
      intro tks s s' h
      simp only [parseIfStatement] at h
      split at h
      next s1 heq1 => exact absurd h throwAtPeek_ne_ok
      next s1 heq1 =>
        have h1 := matchT_stacks_of_eq heq1
        split at h
        · exact Except.noConfusion h
        next openTok heqO =>
          split at h
          · exact Except.noConfusion h
          next a3 s3 heqE =>
            have hE := parseExpression_stacks fuel tks _ a3 s3 heqE
            have hE1 : s3.bracketStack = '(' :: s1.bracketStack := hE.1
            have hE2 : s3.lineStack = openTok.line :: s1.lineStack := hE.2
            split at h
            next s4 heq4 => exact absurd h throwAtPeek_ne_ok
            next s4 heq4 =>
              have h4 := matchT_stacks_of_eq heq4
              split at h
              next s6 heq6 => exact absurd h throwAtPeek_ne_ok
              next s6 heq6 =>
                have h6 := matchT_stacks_of_eq heq6
                split at h
                · exact Except.noConfusion h
                next braceTok heqBt =>
                  split at h
                  · exact Except.noConfusion h
                  next s8 heqB =>
                    have hB := ihB tks _ s8 heqB
                    have hB1 : s8.bracketStack = '\x7b' :: s6.bracketStack := hB.1
                    have hB2 : s8.lineStack = braceTok.line :: s6.lineStack := hB.2
                    simp only [Except.ok.injEq] at h
                    subst h
                    constructor
                    · show s8.bracketStack.tail = s.bracketStack
                      rw [hB1, List.tail_cons, h6.1, h4.1, hE1, List.tail_cons, h1.1]
                    · show s8.lineStack.tail = s.lineStack
                      rw [hB2, List.tail_cons, h6.2, h4.2, hE2, List.tail_cons, h1.2]
    · -- parseWhileStatement
      intro tks s s' h
      simp only [parseWhileStatement] at h
      split at h
      next s1 heq1 => exact absurd h throwAtPeek_ne_ok
      next s1 heq1 =>
        have h1 := matchT_stacks_of_eq heq1
        split at h
        · exact Except.noConfusion h
        next openTok heqO =>
          split at h
          · exact Except.noConfusion h
          next a3 s3 heqE =>
            have hE := parseExpression_stacks fuel tks _ a3 s3 heqE
            have hE1 : s3.bracketStack = '(' :: s1.bracketStack := hE.1
            have hE2 : s3.lineStack = openTok.line :: s1.lineStack := hE.2
            split at h
            next s4 heq4 => exact absurd h throwAtPeek_ne_ok
            next s4 heq4 =>
              have h4 := matchT_stacks_of_eq heq4
              split at h
              next s6 heq6 => exact absurd h throwAtPeek_ne_ok
              next s6 heq6 =>
                have h6 := matchT_stacks_of_eq heq6
                split at h
                · exact Except.noConfusion h
                next braceTok heqBt =>
                  split at h
                  · exact Except.noConfusion h
                  next s8 heqB =>
                    have hB := ihB tks _ s8 heqB
                    have hB1 : s8.bracketStack = '\x7b' :: s6.bracketStack := hB.1
                    have hB2 : s8.lineStack = braceTok.line :: s6.lineStack := hB.2
                    simp only [Except.ok.injEq] at h
                    subst h
                    constructor
                    · show s8.bracketStack.tail = s.bracketStack
                      rw [hB1, List.tail_cons, h6.1, h4.1, hE1, List.tail_cons, h1.1]
                    · show s8.lineStack.tail = s.lineStack
                      rw [hB2, List.tail_cons, h6.2, h4.2, hE2, List.tail_cons, h1.2]
    · -- parseForStatement
      intro tks s s' h
      simp only [parseForStatement] at h
      split at h
      next s1 heq1 => exact absurd h throwAtPeek_ne_ok
      next s1 heq1 =>
        have h1 := matchT_stacks_of_eq heq1
        split at h
        · exact Except.noConfusion h
        next openTok heqO =>
          split at h
          · exact Except.noConfusion h
          next a3 s3 heqE1 =>
            have hE := parseExpression_stacks fuel tks _ a3 s3 heqE1
            have hE1 : s3.bracketStack = '(' :: s1.bracketStack := hE.1
            have hE2 : s3.lineStack = openTok.line :: s1.lineStack := hE.2
            split at h
            next s4 heq4 => exact absurd h throwAtPeek_ne_ok
            next s4 heq4 =>
              have h4 := matchT_stacks_of_eq heq4
              split at h
              · exact Except.noConfusion h
              next a5 s5 heqE2 =>
                have hE5 := parseExpression_stacks fuel tks s4 a5 s5 heqE2
                split at h
                next s6 heq6 => exact absurd h throwAtPeek_ne_ok
                next s6 heq6 =>
                  have h6 := matchT_stacks_of_eq heq6
                  split at h
                  · exact Except.noConfusion h
                  next a7 s7 heqE3 =>
                    have hE7 := parseExpression_stacks fuel tks s6 a7 s7 heqE3
                    split at h
                    next s8 heq8 => exact absurd h throwAtPeek_ne_ok
                    next s8 heq8 =>
                      have h8 := matchT_stacks_of_eq heq8
                      split at h
                      next s10 heq10 => exact absurd h throwAtPeek_ne_ok
                      next s10 heq10 =>
                        have h10 := matchT_stacks_of_eq heq10
                        split at h
                        · exact Except.noConfusion h
                        next braceTok heqBt =>
                          split at h
                          · exact Except.noConfusion h
                          next s12 heqB =>
                            have hB := ihB tks _ s12 heqB
                            have hB1 : s12.bracketStack = '\x7b' :: s10.bracketStack := hB.1
                            have hB2 : s12.lineStack = braceTok.line :: s10.lineStack := hB.2
                            simp only [Except.ok.injEq] at h
                            subst h
                            constructor
                            · show s12.bracketStack.tail = s.bracketStack
                              rw [hB1, List.tail_cons, h10.1, h8.1, hE7.1, h6.1, hE5.1,
                                h4.1, hE1, List.tail_cons, h1.1]
                            · show s12.lineStack.tail = s.lineStack
                              rw [hB2, List.tail_cons, h10.2, h8.2, hE7.2, h6.2, hE5.2,
                                h4.2, hE2, List.tail_cons, h1.2]
    · -- parseBlockBody
      intro tks s s' h
      simp only [parseBlockBody] at h
      split at h
      next s1 heq1 =>
        have h1 := matchT_stacks_of_eq heq1
        simp only [Except.ok.injEq] at h
        subst h
        exact h1
      next s1 heq1 =>
        have h1 := matchT_stacks_of_eq heq1
        split at h
        · exact Except.noConfusion h
        next s2 heqS =>
          have h2 := ihS tks s1 s2 heqS
          have h3 := ihB tks s2 s' h
          exact ⟨h3.1.trans (h2.1.trans h1.1), h3.2.trans (h2.2.trans h1.2)⟩

lemma programLoop_stacks : ∀ (fuel : Nat) (tks : List Token) (s s' : PState),
    programLoop tks fuel s = .ok s' →
    s'.bracketStack = s.bracketStack ∧ s'.lineStack = s.lineStack := by
  intro fuel
  induction fuel with
  | zero => intro tks s s' h; exact Except.noConfusion h
  | succ fuel ih =>
    intro tks s s' h
    rw [programLoop] at h
    split at h
    · simp only [Except.ok.injEq] at h
      subst h
      exact ⟨rfl, rfl⟩
    · split at h
      · exact Except.noConfusion h
      next s1 heqS =>
        have h1 := (knot_stacks fuel).1 tks s s1 heqS
        have h2 := ih tks s1 s' h
        exact ⟨h2.1.trans h1.1, h2.2.trans h1.2⟩

lemma parse_final_stacks {tks : List Token} {fuel : Nat} {a : Option ASTNode}
    {s' : PState} (h : parse tks fuel = .ok (a, s')) :
    s'.bracketStack = [] ∧ s'.lineStack = [] := by
  unfold parse parseProgram at h
  split at h
  · exact Except.noConfusion h
  next s1 heqL =>
    have h1 := programLoop_stacks fuel tks ⟨0, [], []⟩ s1 heqL
    split at h
    · simp only [Except.ok.injEq, Prod.mk.injEq] at h
      obtain ⟨-, hs⟩ := h
      subst hs
      exact ⟨h1.1, h1.2⟩
    · split at h <;> exact Except.noConfusion h

/-! ## Claim theorems -/

/-- C1 counterexample: for the source "int a, b;" parsing raises no error, but
the parse output the caller receives is the null root, not the Declaration
node: `parseProgram` discards every statement's node and returns `nullptr`. -/
theorem claim_C1_cex :
    parse (tokenize "int a, b;") 32 = .ok (none, ⟨5, [], []⟩) ∧
    (parse (tokenize "int a, b;") 32).map Prod.fst ≠
      .ok (some (.declaration "int" ["a", "b"])) :=
  ⟨rfl, fun h => Option.noConfusion (Except.ok.inj h)⟩

/-- C1 amended: the source "int a, b;" tokenizes to exactly the claimed five
tokens and parsing consumes them with no error; the variable-declaration
subroutine does build Declaration("int", ["a", "b"]) internally, but the
top-level parse returns the null root, so the caller receives no node. -/
theorem claim_C1 :
    tokenize "int a, b;" =
      [⟨.KEYWORD, "int", 1⟩, ⟨.IDENTIFIER, "a", 1⟩, ⟨.PUNCTUATION, ",", 1⟩,
       ⟨.IDENTIFIER, "b", 1⟩, ⟨.PUNCTUATION, ";", 1⟩] ∧
    parseVariableDeclaration (tokenize "int a, b;") 32 ⟨1, [], []⟩ =
      .ok (some (.declaration "int" ["a", "b"]), ⟨5, [], []⟩) ∧
    parse (tokenize "int a, b;") 32 = .ok (none, ⟨5, [], []⟩) :=
  ⟨by decide, rfl, rfl⟩

/-- C2: the source "foo.bar();" tokenizes with the dot classified as an
OPERATOR token (the operator alternative precedes punctuation), but
`parseFileOperation` requires a PUNCTUATION dot, so the parse of the claimed
member-call raises "Unexpected token after file identifier at line 1" instead
of accepting. -/
theorem claim_C2_bug :
    tokenize "foo.bar();" =
      [⟨.IDENTIFIER, "foo", 1⟩, ⟨.OPERATOR, ".", 1⟩, ⟨.IDENTIFIER, "bar", 1⟩,
       ⟨.PUNCTUATION, "(", 1⟩, ⟨.PUNCTUATION, ")", 1⟩, ⟨.PUNCTUATION, ";", 1⟩] ∧
    parse (tokenize "foo.bar();") 32 =
      .error (.runtimeError "Unexpected token after file identifier at line 1") :=
  ⟨by decide, rfl⟩

/-- C3: the keyword alternation lacks the word for, so no token of any scan is
a KEYWORD with text "for"; the source word for lexes as an IDENTIFIER, the
dispatcher routes it to the file-operation parser, and a well-formed for loop
is rejected with "Unexpected token after file identifier" instead of reaching
the for-statement parser. -/
theorem claim_C3_bug :
    (∀ (f : Nat) (cs : List Char) (line : Nat) (t : Token),
      t ∈ tokenizeFuel f cs line → t.type = .KEYWORD → t.value ≠ "for") ∧
    tokenize "for (x; x; x) \x7b \x7d" =
      [⟨.IDENTIFIER, "for", 1⟩, ⟨.PUNCTUATION, "(", 1⟩, ⟨.IDENTIFIER, "x", 1⟩,
       ⟨.PUNCTUATION, ";", 1⟩, ⟨.IDENTIFIER, "x", 1⟩, ⟨.PUNCTUATION, ";", 1⟩,
       ⟨.IDENTIFIER, "x", 1⟩, ⟨.PUNCTUATION, ")", 1⟩, ⟨.PUNCTUATION, "\x7b", 1⟩,
       ⟨.PUNCTUATION, "\x7d", 1⟩] ∧
    parse (tokenize "for (x; x; x) \x7b \x7d") 32 =
      .error (.runtimeError "Unexpected token after file identifier at line 1") := by
  refine ⟨?_, by decide, rfl⟩
  intro f cs line t hmem hty hfor
  obtain ⟨c, cs2, l0, k, l', hnt⟩ := mem_tokenizeFuel_source f cs line t hmem
  obtain ⟨w, hw, hval⟩ := (nextTok_types hnt).1 hty
  have hne : ∀ u ∈ keywords, u.asString ≠ "for" := by decide
  exact hne w hw (by rw [← hval, hfor])

/-- C3 witness: the KEYWORD token from the source "int" instantiates the
universal half of the theorem. -/
theorem claim_C3_bug_witness : (⟨.KEYWORD, "int", 1⟩ : Token).value ≠ "for" :=
  claim_C3_bug.1 3 "int".toList 1 ⟨.KEYWORD, "int", 1⟩ (by decide) rfl

/-- C4: the operator alternation has not-equals but no lone exclamation mark,
so no token of any scan is an OPERATOR with text "!"; a lone bang lexes as
UNKNOWN.  Fed a hand-built OPERATOR "!" token the expression parser does build
the UnaryOperation node, but from source text the branch is unreachable: the
expression position "!x" inside "if (!x) \x7bthen-block\x7d" makes the parse
fail instead of building a UnaryOperation. -/
theorem claim_C4_bug :
    (∀ (f : Nat) (cs : List Char) (line : Nat) (t : Token),
      t ∈ tokenizeFuel f cs line → t.type = .OPERATOR → t.value ≠ "!") ∧
    tokenize "!x" = [⟨.UNKNOWN, "!", 1⟩, ⟨.IDENTIFIER, "x", 1⟩] ∧
    parseExpression [⟨.OPERATOR, "!", 1⟩, ⟨.IDENTIFIER, "x", 1⟩] 32 ⟨0, [], []⟩ =
      .ok (some (.unaryOperation "!" none), ⟨2, [], []⟩) ∧
    parse (tokenize "if (!x) \x7b \x7d") 32 =
      .error (.runtimeError "Expected ')' after condition in 'if' statement at line 1") := by
  refine ⟨?_, by decide, rfl, rfl⟩
  intro f cs line t hmem hty hbang
  obtain ⟨c, cs2, l0, k, l', hnt⟩ := mem_tokenizeFuel_source f cs line t hmem
  obtain ⟨w, hw, hval⟩ := (nextTok_types hnt).2 hty
  have hne : ∀ u ∈ operators, u.asString ≠ "!" := by decide
  exact hne w hw (by rw [← hval, hbang])

/-- C4 witness: the OPERATOR token from the source "+" instantiates the
universal half of the theorem. -/
theorem claim_C4_bug_witness : (⟨.OPERATOR, "+", 1⟩ : Token).value ≠ "!" :=
  claim_C4_bug.1 3 "+".toList 1 ⟨.OPERATOR, "+", 1⟩ (by decide) rfl

/-- C5: erasing positions from the instrumented scan gives the scan itself;
every token of the scan of a whole source reports line one plus the number of
newline characters before the token's first character; and the emitted line
numbers never decrease along the sequence. -/
theorem claim_C5 :
    (∀ (f : Nat) (cs : List Char) (line idx : Nat),
      (tokenizeFuelPos f cs line idx).map Prod.fst = tokenizeFuel f cs line) ∧
    (∀ (src : List Char) (t : Token) (i : Nat),
      (t, i) ∈ tokenizeFuelPos src.length src 1 0 →
      t.line = 1 + ((src.take i).count '\n')) ∧
    (∀ source : String, List.Chain' (· ≤ ·) ((tokenize source).map Token.line)) := by
  refine ⟨tokenizeFuelPos_fst, ?_, ?_⟩
  · intro src t i h
    exact tokenizeFuelPos_lines src.length src src 1 0 (by simp) (by simp) t i h
  · intro source
    exact tokenizeFuel_chain _ _ _

/-- C5 witness: in the source a-newline-b, the token b at index 2 reports line
2 = 1 + 1. -/
theorem claim_C5_witness :
    (⟨.IDENTIFIER, "b", 2⟩ : Token).line = 1 + ((("a\nb".toList).take 2).count '\n') :=
  claim_C5.2.1 "a\nb".toList ⟨.IDENTIFIER, "b", 2⟩ 2 (by decide)

/-- C6: the source "int a" followed by a newline tokenizes to two tokens on
line 1; the missing-semicolon branch of parseVariableDeclaration builds its
message from peek() with the cursor at the end of the two-token vector, an
out-of-bounds read (undefined behavior), not a well-defined error citing
line 1. -/
theorem claim_C6_bug :
    tokenize "int a\n" = [⟨.KEYWORD, "int", 1⟩, ⟨.IDENTIFIER, "a", 1⟩] ∧
    parse (tokenize "int a\n") 32 = .error .outOfBounds :=
  ⟨by decide, rfl⟩

/-- C7: for the unclosed while body, end of input is reached inside the body
loop, the statement dispatcher's fallback evaluates peek() past the end of the
five-token vector (undefined behavior); the mismatched-bracket check is never
reached and no MismatchedBracket error citing the brace line is raised. -/
theorem claim_C7_bug :
    tokenize "while (x) \x7b\n" =
      [⟨.KEYWORD, "while", 1⟩, ⟨.PUNCTUATION, "(", 1⟩, ⟨.IDENTIFIER, "x", 1⟩,
       ⟨.PUNCTUATION, ")", 1⟩, ⟨.PUNCTUATION, "\x7b", 1⟩] ∧
    parse (tokenize "while (x) \x7b\n") 32 = .error .outOfBounds :=
  ⟨by decide, rfl⟩

/-- C8: every successful statement parse restores both tracker stacks to their
entry value (so, in particular, it preserves their equal length), and a
successful parse of a whole token sequence ends with both stacks empty. -/
theorem claim_C8 :
    (∀ (tks : List Token) (fuel : Nat) (s s' : PState),
      parseStatement tks fuel s = .ok s' →
      s'.bracketStack = s.bracketStack ∧ s'.lineStack = s.lineStack) ∧
    (∀ (tks : List Token) (fuel : Nat) (s s' : PState),
      parseStatement tks fuel s = .ok s' →
      s.bracketStack.length = s.lineStack.length →
      s'.bracketStack.length = s'.lineStack.length) ∧
    (∀ (tks : List Token) (fuel : Nat) (a : Option ASTNode) (s' : PState),
      parse tks fuel = .ok (a, s') → s'.bracketStack = [] ∧ s'.lineStack = []) := by
  refine ⟨?_, ?_, ?_⟩
  · intro tks fuel s s' h
    exact (knot_stacks fuel).1 tks s s' h
  · intro tks fuel s s' h hlen
    obtain ⟨h1, h2⟩ := (knot_stacks fuel).1 tks s s' h
    rw [h1, h2]
    exact hlen
  · intro tks fuel a s' h
    exact parse_final_stacks h

/-- C8 witness: the successful parse of "int a;" ends with both stacks
empty. -/
theorem claim_C8_witness :
    (⟨3, [], []⟩ : PState).bracketStack = [] ∧ (⟨3, [], []⟩ : PState).lineStack = [] :=
  claim_C8.2.2 (tokenize "int a;") 32 none ⟨3, [], []⟩ rfl

/-- C9 counterexample: the carriage return is matched by no classification
rule (the regex fallback dot excludes line terminators), yet the scan of the
one-character source carriage-return emits no token at all: the character is
silently skipped, not turned into the claimed single-character Unknown
token. -/
theorem claim_C9_cex :
    tokenize "\r" = [] ∧ tokenize "\r" ≠ [⟨.UNKNOWN, "\r", 1⟩] :=
  ⟨rfl, by decide⟩

/-- C9 amended: the tokenizer is total: the empty source gives the empty
sequence, the scan emits at most one token per input character, any fuel at
least the input length computes the same complete sequence (the scan
terminates after consuming the whole input), and a character at which every
classification rule fails becomes a single-character UNKNOWN token consuming
one character - except the carriage return, which no alternative matches and
which is skipped with no token emitted; the unmatched at-sign concretely
yields the single Unknown token on line 1, while the carriage return yields
the empty sequence. -/
theorem claim_C9 :
    tokenize "" = [] ∧
    tokenize "@" = [⟨.UNKNOWN, "@", 1⟩] ∧
    (∀ (f : Nat) (cs : List Char) (line : Nat),
      (tokenizeFuel f cs line).length ≤ cs.length) ∧
    (∀ (f g : Nat) (cs : List Char) (line : Nat), cs.length ≤ f → cs.length ≤ g →
      tokenizeFuel f cs line = tokenizeFuel g cs line) ∧
    (∀ (c : Char) (cs : List Char) (line : Nat),
      tryWords keywords (c :: cs) = none →
      isIdentStart c = false →
      (if c = '"' then scanLiteral cs else none) = none →
      tryWords operators (c :: cs) = none →
      punctChars.contains c = false →
      ¬(c = ' ' ∨ c = '\t') →
      c ≠ '\n' →
      (c ≠ '\r' →
        nextTok (c :: cs) line = (some ⟨.UNKNOWN, String.mk [c], line⟩, 1, line)) ∧
      (c = '\r' → nextTok (c :: cs) line = (none, 1, line))) ∧
    tokenize "\r" = [] := by
  refine ⟨rfl, by decide, tokenizeFuel_length, tokenizeFuel_mono, ?_, rfl⟩
  intro c cs line h1 h2 h3 h4 h5 h6 h7
  constructor
  · intro h8
    simp only [nextTok, h1, h3, h4, h2, Bool.false_eq_true, if_false, h5,
      if_neg h6, if_neg h7, if_neg h8]
  · intro h8
    simp only [nextTok, h1, h3, h4, h2, Bool.false_eq_true, if_false, h5,
      if_neg h6, if_neg h7, if_pos h8]

/-- C9 witness: at the unmatched character at-sign every earlier rule fails
and the step emits the single one-character Unknown token; and on the
one-character source at-sign any sufficient fuel agrees with fuel one. -/
theorem claim_C9_witness :
    nextTok ['@'] 1 = (some ⟨.UNKNOWN, "@", 1⟩, 1, 1) ∧
    tokenizeFuel 5 ['@'] 1 = tokenizeFuel 1 ['@'] 1 :=
  ⟨(claim_C9.2.2.2.2.1 '@' [] 1 rfl rfl rfl rfl rfl (by decide) (by decide)).1
      (by decide),
    claim_C9.2.2.2.1 5 1 ['@'] 1 (by decide) (by decide)⟩

/-- C10: the parser's error-reporting paths do read past the end of the token
vector: the missing-semicolon branch after "int a" reads tokens[2] of a
two-token vector, and the dispatcher fallback at end of input inside an
unclosed if body reads tokens[5] of a five-token vector; both runs end in the
out-of-bounds fault, refuting the claimed in-bounds invariant. -/
theorem claim_C10_bug :
    parse (tokenize "int a") 32 = .error .outOfBounds ∧
    parse (tokenize "if (x) \x7b") 32 = .error .outOfBounds :=
  ⟨rfl, rfl⟩

end MiniCompiler
